import Mathlib

/-!
Verification development for the OpenMOL molecular-data interchange layer.

Each Python function relevant to the checked properties is shallowly embedded
as an executable Lean definition, translated directly from the source files
(`openmol/pdb.py`, `openmol/amber_parm7.py`, `openmol/lammps_full.py`,
`openmol/tripos_mol2.py`, `openmol/mol2.py`, `openmol/array.py`).
Python machine floats are modelled as exact rationals or reals, Python lists
as `List`, and fallible paths (`return None` / `return False`) as `Option`.
-/

namespace OpenMol

/-! ## PDB build step (`openmol/pdb.py`, `PDB.build`, lines 173-191)

`PDB.build` scans `atom_resid`, keeping the previous raw residue id `old_id`
and a running `offset`.  On `old_id > resid and resid == 0` it bumps the
offset by `old_id - resid + 1`; on `old_id > resid and resid != 0` the source
evaluates the expression `ValueError("Invalid ResID order at atom %d" % (i+1))`
WITHOUT a `raise` statement (pdb.py line 186), so the constructed exception is
discarded and the loop continues.  The embedding is therefore a total function:
no error path exists in the compiled code.  The whole fix-up loop only runs
when `len(set(atom_resid)) > 1`. -/

/-- Embedding of the scan loop of `PDB.build`: state is `(old_id, offset)`,
each atom emits `resid + offset` (after a possible offset bump).  The
`old_id > resid ∧ resid ≠ 0` branch is a no-op in the source because the
`ValueError` there is constructed but never raised. -/
def pdbFixResids (old off : ℤ) : List ℤ → List ℤ
  | [] => []
  | r :: rest =>
    let off' := if old > r ∧ r = 0 then off + old - r + 1 else off
    (r + off') :: pdbFixResids r off' rest

/-- Embedding of `PDB.build` restricted to its only effect, the rewrite of
`atom_resid` (`len(unique_resids) > 1` guards the loop; `list(set(xs))` has
the same length as `xs.dedup`). -/
def pdbBuildResids (resids : List ℤ) : List ℤ :=
  if 1 < resids.dedup.length then pdbFixResids 0 0 resids else resids

/-- Whether the scan of `PDB.build` ever reaches the branch
`old_id > resid and resid != 0` (where the source builds, but does not raise,
a `ValueError`), starting from previous id `old`. -/
def pdbHasInvalidOrder (old : ℤ) : List ℤ → Bool
  | [] => false
  | r :: rest => (decide (old > r) && decide (r ≠ 0)) || pdbHasInvalidOrder r rest

/-! ## AMBER PARM7 bond section decode
(`openmol/amber_parm7.py`, `process_last_section`, lines 265-274)

The `BONDS_INC_HYDROGEN` / `BONDS_WITHOUT_HYDROGEN` branch walks the parsed
integer tokens three at a time and appends
`int(abs(a)/3)`, `int(abs(b)/3)`, `f - 1` to `bond_from` / `bond_to` /
`bond_ff_index`.  On integers, `int(abs(a)/3)` is exact-division-then-truncate,
i.e. `a.natAbs / 3` (natural division). -/

/-- Decode the raw token stream of a PARM7 bond section into
`(bond_from, bond_to, bond_ff_index)` triples. -/
def decodeBondTriples : List ℤ → List (ℕ × ℕ × ℤ)
  | a :: b :: f :: rest => (a.natAbs / 3, b.natAbs / 3, f - 1) :: decodeBondTriples rest
  | _ => []

/-! ## PARM7 Lennard-Jones derivation (`openmol/amber_parm7.py`, `build`,
lines 77-103)

For each type `i < PARM_NTYPES` the build looks up the diagonal slot
`j = parm7_lj_index[i * (NTYPES + 1)] - 1`, takes `A = acoeff[j]`,
`B = bcoeff[j]` and appends `epsilon = 0.25 * B**2 / A` (0 if `A == 0`) and
`sigma = (A / B)**(1/6)` (0 if `B == 0`) to `parm7_lj_epsilon` /
`parm7_lj_sigma`.  Floats are modelled as exact reals, float `**` as
`Real.rpow`.  Python list indexing is modelled with `getD` (the theorems
restrict attention to in-range, non-negative indices, where both agree). -/

/-- Epsilon branch of the LJ derivation (amber_parm7.py lines 92-95). -/
noncomputable def ljEps (A B : ℝ) : ℝ :=
  if A = 0 then 0 else 0.25 * B ^ 2 / A

/-- Sigma branch of the LJ derivation (amber_parm7.py lines 97-100). -/
noncomputable def ljSigma (A B : ℝ) : ℝ :=
  if B = 0 then 0 else (A / B) ^ ((1 : ℝ) / 6)

/-- The epsilon values appended by the loop at amber_parm7.py lines 86-103. -/
noncomputable def ljEpsList (ntypes : ℕ) (ljIndex : List ℤ) (ac bc : List ℝ) :
    List ℝ :=
  (List.range ntypes).map fun i =>
    let j := (ljIndex.getD (i * (ntypes + 1)) 0 - 1).toNat
    ljEps (ac.getD j 0) (bc.getD j 0)

/-- The sigma values appended by the loop at amber_parm7.py lines 86-103. -/
noncomputable def ljSigmaList (ntypes : ℕ) (ljIndex : List ℤ) (ac bc : List ℝ) :
    List ℝ :=
  (List.range ntypes).map fun i =>
    let j := (ljIndex.getD (i * (ntypes + 1)) 0 - 1).toNat
    ljSigma (ac.getD j 0) (bc.getD j 0)

/-- The fields of the molecule record that the LJ block of the PARM7 `build`
reads or writes. -/
structure Parm7LJ where
  atom_type : List String
  ntypes : ℕ
  lj_index : List ℤ
  acoeff : List ℝ
  bcoeff : List ℝ
  eps : List ℝ
  sigma : List ℝ

/-- Embedding of the LJ block of the PARM7 `build` (amber_parm7.py lines
73-103): `unique_atom_types = list(set(atom_type))` (only its length is used
here, equal to `dedup.length`); the guard is
`len(acoeff) and len(sigma) != len(unique_atom_types)`; when
`parm7_lj_index` is falsy (empty) only a diagnostic is printed; otherwise the
derived values are APPENDED to the existing `parm7_lj_epsilon` /
`parm7_lj_sigma` lists (the source does not reset them first, unlike the
`FF_lj_*` block at lines 123-124). -/
noncomputable def parm7BuildLJ (M : Parm7LJ) : Parm7LJ :=
  if M.acoeff.length ≠ 0 ∧ M.sigma.length ≠ M.atom_type.dedup.length then
    if M.lj_index.length = 0 then M
    else
      { M with
        eps := M.eps ++ ljEpsList M.ntypes M.lj_index M.acoeff M.bcoeff,
        sigma := M.sigma ++ ljSigmaList M.ntypes M.lj_index M.acoeff M.bcoeff }
  else M

/-! ## AMBER RST7 reader (`openmol/amber_parm7.py`, `read_rst7`,
lines 417-510)

After the title and atom-count lines, all remaining whitespace tokens are
collected into `items` (floats, modelled as exact rationals).  The reader
fails (`return False`) when fewer than `3N` tokens are present; otherwise it
reads `N` coordinate triples with the loop `for i in range(0, 3N, 3)`, reads
velocity triples from `items[3N:6N]` when `len(items) >= 6N`, sets the box
lengths from the first three tokens of the last non-empty line when
`len(items)` is one of `3N+3, 6N+3, 3N+6, 6N+6`, and sets the box angles
from tokens 3-5 of that line when `len(items)` is `3N+6` or `6N+6`. -/

/-- The stride-3 read loop `for i in range(0, 3*n, 3)`: splits the first
`3n` tokens into the three coordinate component lists. -/
def takeTriples : ℕ → List ℚ → List ℚ × List ℚ × List ℚ
  | 0, _ => ([], [], [])
  | n + 1, a :: b :: c :: rest =>
    let r := takeTriples n rest
    (a :: r.1, b :: r.2.1, c :: r.2.2)
  | _ + 1, _ => ([], [], [])

/-- The fields of the molecule record populated by `read_rst7`. -/
structure Rst7Out where
  atom_x : List ℚ
  atom_y : List ℚ
  atom_z : List ℚ
  atom_vx : List ℚ
  atom_vy : List ℚ
  atom_vz : List ℚ
  boxDims : Option (ℚ × ℚ × ℚ)
  boxAngles : Option (ℚ × ℚ × ℚ)

/-- Embedding of the data part of `read_rst7` for a declared atom count `n`
that matches the PARM7 record: `items` are all data tokens after line 2,
`lastLine` the tokens of the last non-empty line (from which box info is
read). -/
def readRst7Tail (n : ℕ) (items lastLine : List ℚ) : Option Rst7Out :=
  if items.length < 3 * n then none
  else
    let c := takeTriples n items
    let v := if 6 * n ≤ items.length then takeTriples n (items.drop (3 * n))
      else ([], [], [])
    some
      { atom_x := c.1, atom_y := c.2.1, atom_z := c.2.2
        atom_vx := v.1, atom_vy := v.2.1, atom_vz := v.2.2
        boxDims :=
          if items.length = 3 * n + 3 ∨ items.length = 6 * n + 3 ∨
              items.length = 3 * n + 6 ∨ items.length = 6 * n + 6 then
            some (lastLine.getD 0 0, lastLine.getD 1 0, lastLine.getD 2 0)
          else none
        boxAngles :=
          if items.length = 3 * n + 6 ∨ items.length = 6 * n + 6 then
            some (lastLine.getD 3 0, lastLine.getD 4 0, lastLine.getD 5 0)
          else none }

/-! ## TRIPOS MOL2 build (`openmol/tripos_mol2.py`, `build`, lines 32-121)

The build defaults `type`/`charge_type`, backfills `atom_resid` /
`atom_resname` from the residue table when the per-atom residue names are
missing, renumbers residue ids (erroring — `return None` — when an id
decreases), defaults bond types to `"1"`, rebuilds the residue table from
the per-atom data when the table length disagrees with the number of
distinct residue ids, recomputes the summary counts from array lengths, and
fails (`return None`) when the distinct-residue count disagrees with the
rebuilt `no_residues`. -/

/-- Python truthiness test `not MOL['type']` for an optional string. -/
def falsyStr : Option String → Bool
  | none => true
  | some s => s == ""

/-- The residue-expansion loop (tripos_mol2.py lines 51-60): residue `r`
spans atoms `residue_start[r]` (inclusive) to `residue_start[r+1]`
(exclusive), the last residue extending to `no_atoms`; each atom in the
span contributes `(r, residue_name[r])`.  `names.getD` models the Python
indexing `residue_name[r]`. -/
def expandResidues (r : ℕ) (names : List String) (noAtoms : ℕ) :
    List ℕ → List (ℤ × String)
  | [] => []
  | st :: rest =>
    let e := match rest with
      | next :: _ => next
      | [] => noAtoms
    List.replicate (e - st) ((r : ℤ), names.getD r "") ++
      expandResidues (r + 1) names noAtoms rest

/-- The residue-id normalisation loop (tripos_mol2.py lines 65-79), state
`(old_id, id_num)` starting at `(0, 0)`: an id smaller than the previous one
aborts the build (`return None`), a changed id starts a new residue number. -/
def fixResids (old idNum : ℤ) : List ℤ → Option (List ℤ)
  | [] => some []
  | r :: rest =>
    if old > r then none
    else
      let old' := if r ≠ old then r else old
      let id' := if r ≠ old then idNum + 1 else idNum
      (fixResids old' id' rest).map fun l => id' :: l

/-- The residue-table rebuild loop (tripos_mol2.py lines 100-105): scanning
`atom_resid` with absolute index `i`, every change of id appends the start
index `i` and the name `atom_resname[i]`. -/
def rebuildLoop (names : List String) (currentId : ℤ) (i : ℕ) :
    List ℤ → List ℕ × List String
  | [] => ([], [])
  | r :: rest =>
    if r ≠ currentId then
      let p := rebuildLoop names r (i + 1) rest
      (i :: p.1, names.getD i "" :: p.2)
    else
      rebuildLoop names currentId (i + 1) rest

/-- The full residue-table rebuild (tripos_mol2.py lines 91-105): start with
atom 0 (`residue_start = [0]`, `residue_name = [atom_resname[0]]`), then run
the scan loop from `current_id = 0`, index 0. -/
def mol2RebuildTables (resids : List ℤ) (names : List String) :
    List ℕ × List String :=
  let p := rebuildLoop names 0 0 resids
  (0 :: p.1, names.getD 0 "" :: p.2)

/-- The fields of the molecule record read or written by the MOL2 `build`. -/
structure Mol2Rec where
  mtype : Option String
  charge_type : Option String
  atom_name : List String
  atom_resid : List ℤ
  atom_resname : List String
  bond_from : List ℕ
  bond_type : List String
  residue_name : List String
  residue_start : List ℕ
  residue_type : List String
  no_atoms : ℕ
  no_bonds : ℕ
  no_residues : ℕ

/-- Embedding of `tripos_mol2.build` (lines 32-121).  The initialize-merge at
line 38 only fills keys that are absent; on a typed record every field is
present, so it is the identity here. -/
def mol2Build (M : Mol2Rec) : Option Mol2Rec :=
  let mtype := if falsyStr M.mtype then some "SMALL" else M.mtype
  let chargeType :=
    if falsyStr M.charge_type then some "USER_CHARGES" else M.charge_type
  let expanded := expandResidues 0 M.residue_name M.no_atoms M.residue_start
  let resid1 := if M.atom_resname.length = 0 then
    M.atom_resid ++ expanded.map Prod.fst else M.atom_resid
  let resname1 := if M.atom_resname.length = 0 then
    M.atom_resname ++ expanded.map Prod.snd else M.atom_resname
  let uniqueLen := resid1.dedup.length
  match (if 1 < uniqueLen then fixResids 0 0 resid1 else some resid1) with
  | none => none
  | some resid2 =>
    let bondType := if M.bond_type.length = 0 then
      List.replicate M.no_bonds "1" else M.bond_type
    let rebuilding := M.residue_start.length ≠ uniqueLen
    let rstart := if rebuilding then (mol2RebuildTables resid2 resname1).1
      else M.residue_start
    let rname := if rebuilding then (mol2RebuildTables resid2 resname1).2
      else M.residue_name
    let rtype0 := if rebuilding then [] else M.residue_type
    let noRes := rname.length
    let noAtoms := M.atom_name.length
    let noBonds := M.bond_from.length
    if uniqueLen ≠ noRes then none
    else
      some
        { mtype := mtype, charge_type := chargeType
          atom_name := M.atom_name, atom_resid := resid2
          atom_resname := resname1
          bond_from := M.bond_from, bond_type := bondType
          residue_name := rname, residue_start := rstart
          residue_type := if rtype0.length = 0 then
            List.replicate noRes "RESIDUE" else rtype0
          no_atoms := noAtoms, no_bonds := noBonds, no_residues := noRes }

/-! ## MOL2 bond writing (`openmol/mol2.py`, `Mol2Writer.bonds`, lines
195-215, and `Mol2Reader._process_last_section`, lines 95-131)

Each atom's `Strc.Bonds` slots (up to 8, `nan` meaning empty) hold the
partner indices of its bonds; the reader stores a bond of type `k` as `k`
parallel copies of the partner in each endpoint's slots.  The writer scans
atoms in order; `np.unique(slots, return_counts=True)` yields the sorted
distinct partners with multiplicities, and a record `(i, j, count)` is
written (1-based in the file: `i+1`, `j+1`) unless `[i, j]` or `[j, i]` is
already in `added`.  The slots are modelled as the list of non-nan entries
per atom. -/

/-- Sorted distinct values with multiplicity lookup (`np.unique`). -/
def sortedUnique (l : List ℕ) : List ℕ :=
  List.insertionSort (· ≤ ·) l.dedup

/-- The inner partner loop of `Mol2Writer.bonds` (mol2.py lines 201-215):
emit `(i, j, count)` for each not-yet-written partner `j`, threading the
`added` pair list. -/
def emitPartners (i : ℕ) (slots : List ℕ) (added : List (ℕ × ℕ)) :
    List ℕ → List (ℕ × ℕ × ℕ) × List (ℕ × ℕ)
  | [] => ([], added)
  | j :: js =>
    if (i, j) ∈ added ∨ (j, i) ∈ added then emitPartners i slots added js
    else
      let p := emitPartners i slots (added ++ [(i, j)]) js
      ((i, j, slots.count j) :: p.1, p.2)

/-- The outer atom loop of `Mol2Writer.bonds` (mol2.py lines 199-215). -/
def writeBondsAux (i : ℕ) (added : List (ℕ × ℕ)) :
    List (List ℕ) → List (ℕ × ℕ × ℕ)
  | [] => []
  | slots :: rest =>
    let p := emitPartners i slots added (sortedUnique slots)
    p.1 ++ writeBondsAux (i + 1) p.2 rest

/-- The full bond-record list written by `Mol2Writer.bonds`. -/
def mol2WriteBonds (slotsAll : List (List ℕ)) : List (ℕ × ℕ × ℕ) :=
  writeBondsAux 0 [] slotsAll

/-- Two atom pairs denote the same bond (same pair, either order). -/
def samePair (p q : ℕ × ℕ) : Prop :=
  p = q ∨ p = (q.2, q.1)

/-! ## LAMMPS dihedral coefficient writing
(`openmol/lammps_full.py`, `Writer.dihed_coeffs`, lines 501-512)

For each dihedral type the writer computes
`phase = int(math.cos(FF_dihed_phase[i]))` (truncation toward zero), then
maps `phase == 0` to `1` and anything else to `-1`, and writes the row
`(i+1, FF_dihed_k[i], phase, int(FF_dihed_periodicity[i]))`. -/

/-- Python `int()` on a real value: truncation toward zero. -/
noncomputable def truncToInt (x : ℝ) : ℤ :=
  if 0 ≤ x then ⌊x⌋ else ⌈x⌉

/-- The phase field written by `Writer.dihed_coeffs` for a dihedral type with
phase angle `θ` (lammps_full.py lines 504-508). -/
noncomputable def dihedPhaseField (θ : ℝ) : ℤ :=
  if truncToInt (Real.cos θ) = 0 then 1 else -1

/-- The rows written by `Writer.dihed_coeffs`: one `(id, k, phase, period)`
tuple per dihedral type (lammps_full.py lines 503-512). -/
noncomputable def dihedCoeffRows (n : ℕ) (ks phases periods : List ℝ) :
    List (ℕ × ℝ × ℤ × ℤ) :=
  (List.range n).map fun i =>
    (i + 1, ks.getD i 0, dihedPhaseField (phases.getD i 0),
      truncToInt (periods.getD i 0))

/-! ## Section-parsing state machine (`openmol/array.py`,
`MolReader._process_lines` / `_new_section`, lines 76-106, with the MOL2
classifier `Mol2Reader._identify_section`, mol2.py lines 15-24)

`_process_lines` walks the raw lines: each line is stripped; blank lines are
skipped; `_identify_section` (which also sees the stripped next line, for
lookahead grammars) may declare a section by calling `_new_section`;
declaring the same name is a no-op, declaring a different name flushes the
current buffer to `_process_last_section` — but only when a section is
already open (`if self.section is not None`), so lines before the first
declaration are discarded at the reset — and empties the buffer; then the
stripped line is appended to the buffer.  At end of input the final
`(section, buffer)` is flushed unconditionally, even when no section was
ever declared (`section` still `None`). -/

/-- Python `str.strip()`: drop leading and trailing whitespace. -/
def pyStrip (s : String) : String :=
  ⟨((s.data.dropWhile Char.isWhitespace).reverse.dropWhile
      Char.isWhitespace).reverse⟩

/-- Python `str.startswith`. -/
def startsWithStr (p s : String) : Bool :=
  p.data.isPrefixOf s.data

/-- `line.split('>')[1]` for a MOL2 section marker: the text between the
first and second `>` (on a marker with no `>` at all the Python indexing
would raise; this total model returns `""` there, a case no theorem below
exercises). -/
def mol2SectionName (line : String) : String :=
  ⟨((line.data.dropWhile (fun c => c != '>')).drop 1).takeWhile
    (fun c => c != '>')⟩

/-- The MOL2 section classifier (`Mol2Reader._identify_section`, mol2.py
lines 15-24): `#` lines declare COMMENT, `@<` lines declare the name held by
the marker; the lookahead line is ignored by this format. -/
def mol2Classify (line : String) (_nextLine : Option String) : Option String :=
  if startsWithStr "#" line then some "COMMENT"
  else if startsWithStr "@<" line then some (mol2SectionName line)
  else none

/-- State of `MolReader`: the open section name, its buffered lines, and the
`(section, lines)` pairs already handed to `_process_last_section`. -/
structure ReaderState where
  sec : Option String
  buffer : List String
  flushes : List (Option String × List String)

/-- One line of `MolReader._process_lines` (array.py lines 77-87) together
with `_new_section` (lines 95-106). -/
def stepLine (classify : String → Option String → Option String)
    (st : ReaderState) (line : String) (nextLine : Option String) :
    ReaderState :=
  if pyStrip line = "" then st
  else
    match classify (pyStrip line) (nextLine.map pyStrip) with
    | none => { st with buffer := st.buffer ++ [pyStrip line] }
    | some name =>
      if st.sec = some name then
        { st with buffer := st.buffer ++ [pyStrip line] }
      else
        { sec := some name
          buffer := [pyStrip line]
          flushes := st.flushes ++
            (match st.sec with
             | some s => [(some s, st.buffer)]
             | none => []) }

/-- Run the machine over the lines, feeding each line its raw successor. -/
def runLines (classify : String → Option String → Option String) :
    ReaderState → List String → ReaderState
  | st, [] => st
  | st, l :: rest => runLines classify (stepLine classify st l rest.head?) rest

/-- All `(section, lines)` pairs handed to `_process_last_section` during a
`read_file`, including the unconditional final flush (array.py lines
89-90). -/
def readerFlushes (classify : String → Option String → Option String)
    (lines : List String) : List (Option String × List String) :=
  let st := runLines classify ⟨none, [], []⟩ lines
  st.flushes ++ [(st.sec, st.buffer)]

end OpenMol

namespace OpenMol

/-- Claim C1: the spec says a residue id that decreases without resetting to
exactly 0 makes `PDB.build` raise an explicit fatal error.  The source
instead evaluates `ValueError(...)` without `raise` (pdb.py:186): on the
input `atom_resid = [5, 3]` the invalid-order branch is reached, yet the
build completes normally and returns the still-decreasing list unchanged. -/
theorem pdb_build_invalid_order_returns_normally :
    pdbHasInvalidOrder 0 [5, 3] = true ∧ pdbBuildResids [5, 3] = [5, 3] := by
  constructor
  · decide
  · decide

/-- Claim C2: the claim states that whenever `PDB.build` returns normally the
resulting `atom_resid` is non-decreasing.  Because the invalid-order branch
does not raise, the input `[0, 2, 1]` is returned unchanged — the build
returns normally with a strictly decreasing adjacent pair at positions 1, 2. -/
theorem pdb_build_result_can_decrease :
    pdbBuildResids [0, 2, 1] = [0, 2, 1] ∧
      ¬ List.Chain' (· ≤ ·) (pdbBuildResids [0, 2, 1]) := by
  constructor
  · decide
  · rw [show pdbBuildResids [0, 2, 1] = [0, 2, 1] from by decide]
    simp only [List.chain'_cons, List.chain'_singleton, and_true]
    omega

/-- Claim C6: each decoded PARM7 bond triple `(a, b, f)` yields
`bond_from = |a|/3`, `bond_to = |b|/3`, `bond_ff_index = f - 1`; the raw
tokens `(9, 12, 2)` decode to `(3, 4, 1)`, and a negative raw token decodes
through its absolute value. -/
theorem parm7_bond_decode_spec :
    (∀ (a b f : ℤ) (rest : List ℤ),
        decodeBondTriples (a :: b :: f :: rest) =
          (a.natAbs / 3, b.natAbs / 3, f - 1) :: decodeBondTriples rest) ∧
      decodeBondTriples [9, 12, 2] = [(3, 4, 1)] ∧
      decodeBondTriples [-9, 12, 2] = [(3, 4, 1)] := by
  refine ⟨fun a b f rest => rfl, by decide, by decide⟩

/-! Helper lemmas shared by the LJ and dihedral theorems. -/

/-- Element access into a mapped `List.range`. -/
theorem getD_map_range {α : Type} (n i : ℕ) (f : ℕ → α) (d : α) (hi : i < n) :
    ((List.range n).map f).getD i d = f i := by
  rw [List.getD_eq_getElem?_getD, List.getElem?_map, List.getElem?_range hi]
  rfl

/-- `parm7BuildLJ` never touches the input fields of the record. -/
theorem parm7BuildLJ_fixed (M : Parm7LJ) :
    (parm7BuildLJ M).atom_type = M.atom_type ∧
      (parm7BuildLJ M).ntypes = M.ntypes ∧
      (parm7BuildLJ M).lj_index = M.lj_index ∧
      (parm7BuildLJ M).acoeff = M.acoeff ∧
      (parm7BuildLJ M).bcoeff = M.bcoeff := by
  unfold parm7BuildLJ
  split_ifs <;> exact ⟨rfl, rfl, rfl, rfl, rfl⟩

/-- When the guard re-triggers, `parm7BuildLJ` appends `ntypes` further
entries to each of the `parm7_lj_epsilon` / `parm7_lj_sigma` lists. -/
theorem parm7BuildLJ_append_length (M : Parm7LJ)
    (h1 : M.acoeff.length ≠ 0)
    (h2 : M.sigma.length ≠ M.atom_type.dedup.length)
    (h3 : ¬ M.lj_index.length = 0) :
    (parm7BuildLJ M).eps.length = M.eps.length + M.ntypes ∧
      (parm7BuildLJ M).sigma.length = M.sigma.length + M.ntypes := by
  unfold parm7BuildLJ
  rw [if_pos ⟨h1, h2⟩, if_neg h3]
  constructor <;> simp [ljEpsList, ljSigmaList]

/-- Claim C5: for every type `i < NTYPES`, with `A`, `B` the diagonal
coefficients selected through `parm7_lj_index[i * (NTYPES + 1)] - 1`, the
appended epsilon is `0.25·B²/A` when `A ≠ 0` and `0` when `A = 0`, the
appended sigma is `(A/B)^(1/6)` when `B ≠ 0` and `0` when `B = 0`; the
mixed zero cases `A = 0, B ≠ 0` and `A ≠ 0, B = 0` both give epsilon 0 and
sigma 0, and each division only happens under a nonzero denominator (the
branch guards). -/
theorem parm7_lj_derivation (ntypes i : ℕ) (ljIndex : List ℤ) (ac bc : List ℝ)
    (A B : ℝ) (hi : i < ntypes)
    (hA : A = ac.getD ((ljIndex.getD (i * (ntypes + 1)) 0 - 1).toNat) 0)
    (hB : B = bc.getD ((ljIndex.getD (i * (ntypes + 1)) 0 - 1).toNat) 0) :
    (ljEpsList ntypes ljIndex ac bc).getD i 0 = ljEps A B ∧
      (ljSigmaList ntypes ljIndex ac bc).getD i 0 = ljSigma A B ∧
      (A ≠ 0 → ljEps A B = 0.25 * B ^ 2 / A) ∧
      (B ≠ 0 → ljSigma A B = (A / B) ^ ((1 : ℝ) / 6)) ∧
      (A = 0 → ljEps A B = 0 ∧ ljSigma A B = 0) ∧
      (B = 0 → ljSigma A B = 0 ∧ ljEps A B = 0) := by
  subst hA hB
  refine ⟨getD_map_range ntypes i _ 0 hi, getD_map_range ntypes i _ 0 hi,
    ?_, ?_, ?_, ?_⟩
  · intro h; unfold ljEps; rw [if_neg h]
  · intro h; unfold ljSigma; rw [if_neg h]
  · intro h
    refine ⟨by unfold ljEps; rw [if_pos h], ?_⟩
    unfold ljSigma
    by_cases hb : bc.getD ((ljIndex.getD (i * (ntypes + 1)) 0 - 1).toNat) 0 = 0
    · rw [if_pos hb]
    · rw [if_neg hb, h, zero_div, Real.zero_rpow (by norm_num)]
  · intro h
    refine ⟨by unfold ljSigma; rw [if_pos h], ?_⟩
    unfold ljEps
    by_cases ha : ac.getD ((ljIndex.getD (i * (ntypes + 1)) 0 - 1).toNat) 0 = 0
    · rw [if_pos ha]
    · rw [if_neg ha, h]; ring

/-- Witness for C5 at a concrete input (`NTYPES = 1`, index table `[1]`,
`A = 0`, `B = 3`). -/
theorem parm7_lj_derivation_witness :
    (0 : ℕ) < 1 ∧
      ((ljEpsList 1 [1] [(0 : ℝ)] [3]).getD 0 0 = ljEps 0 3 ∧
        (ljSigmaList 1 [1] [(0 : ℝ)] [3]).getD 0 0 = ljSigma 0 3 ∧
        ((0 : ℝ) ≠ 0 → ljEps 0 3 = 0.25 * 3 ^ 2 / 0) ∧
        ((3 : ℝ) ≠ 0 → ljSigma 0 3 = ((0 : ℝ) / 3) ^ ((1 : ℝ) / 6)) ∧
        ((0 : ℝ) = 0 → ljEps 0 3 = 0 ∧ ljSigma 0 3 = 0) ∧
        ((3 : ℝ) = 0 → ljSigma 0 3 = 0 ∧ ljEps 0 3 = 0)) :=
  ⟨by decide, parm7_lj_derivation 1 0 [1] [0] [3] 0 3 (by decide) rfl rfl⟩

/-- Claim C8: the PARM7 build step is not idempotent.  On a record whose
number of distinct `atom_type` strings (2) differs from `PARM_NTYPES` (1)
and whose A-coefficients are present, the first `build` appends one
epsilon/sigma pair, and a second `build` appends another pair on top (the
guard at amber_parm7.py:78 compares `len(parm7_lj_sigma)` against
`len(unique_atom_types)` while the loop appends `PARM_NTYPES` entries
without resetting the lists), so `build(build(M)) ≠ build(M)`. -/
theorem parm7_build_lj_not_idempotent :
    (parm7BuildLJ (parm7BuildLJ
        ⟨["A", "B"], 1, [1], [1], [1], [], []⟩)).eps.length = 2 ∧
      (parm7BuildLJ
        (⟨["A", "B"], 1, [1], [1], [1], [], []⟩ : Parm7LJ)).eps.length = 1 ∧
      parm7BuildLJ (parm7BuildLJ
        ⟨["A", "B"], 1, [1], [1], [1], [], []⟩) ≠
        parm7BuildLJ (⟨["A", "B"], 1, [1], [1], [1], [], []⟩ : Parm7LJ) := by
  obtain ⟨fixA, fixN, fixI, fixAc, -⟩ :=
    parm7BuildLJ_fixed ⟨["A", "B"], 1, [1], [1], [1], [], []⟩
  obtain ⟨lenE1, lenS1⟩ :=
    parm7BuildLJ_append_length ⟨["A", "B"], 1, [1], [1], [1], [], []⟩
      (by decide) (by decide) (by decide)
  obtain ⟨lenE2, -⟩ :=
    parm7BuildLJ_append_length
      (parm7BuildLJ ⟨["A", "B"], 1, [1], [1], [1], [], []⟩)
      (by rw [fixAc]; decide)
      (by rw [lenS1, fixA]; decide)
      (by rw [fixI]; decide)
  have h2 : (parm7BuildLJ (parm7BuildLJ
      ⟨["A", "B"], 1, [1], [1], [1], [], []⟩)).eps.length = 2 := by
    rw [lenE2, lenE1, fixN]; rfl
  have h1 : (parm7BuildLJ
      (⟨["A", "B"], 1, [1], [1], [1], [], []⟩ : Parm7LJ)).eps.length = 1 := by
    rw [lenE1]; rfl
  refine ⟨h2, h1, fun h => ?_⟩
  have := congrArg (fun M : Parm7LJ => M.eps.length) h
  simp only [h1, h2] at this
  exact absurd this (by decide)

/-- Claim C3 counterexample: at phase angle 0 we have `cos 0 = 1 ≥ 0`, yet
the writer outputs phase `-1` (not `+1` as the claim requires), because the
source maps `int(cos(phase)) == 0` to `+1` and everything else — including
`cos = 1` — to `-1`.  The full written row for a single dihedral type with
`k = 2`, phase `0`, periodicity `3` is `(1, 2, -1, 3)`. -/
theorem dihed_phase_counterexample :
    dihedCoeffRows 1 [(2 : ℝ)] [0] [3] = [(1, 2, -1, 3)] ∧
      (0 : ℝ) ≤ Real.cos 0 := by
  constructor
  · have hrows : dihedCoeffRows 1 [(2 : ℝ)] [0] [3] =
        [(1, (2 : ℝ), dihedPhaseField 0, truncToInt 3)] := rfl
    have hph : dihedPhaseField 0 = -1 := by
      unfold dihedPhaseField truncToInt
      rw [Real.cos_zero]
      norm_num
    have htr : truncToInt (3 : ℝ) = 3 := by
      unfold truncToInt
      norm_num
    rw [hrows, hph, htr]
  · rw [Real.cos_zero]; norm_num

/-- Claim C3 (amended): the phase field written by `dihed_coeffs` is `+1`
exactly when `-1 < cos(phase) < 1` (the truncation `int(cos(phase))` is 0)
and `-1` exactly when `cos(phase)` is exactly `1` or `-1`. -/
theorem dihed_phase_of_cos (θ : ℝ) :
    (dihedPhaseField θ = 1 ↔ -1 < Real.cos θ ∧ Real.cos θ < 1) ∧
      (dihedPhaseField θ = -1 ↔ Real.cos θ = 1 ∨ Real.cos θ = -1) := by
  have hle : Real.cos θ ≤ 1 := Real.cos_le_one θ
  have hge : -1 ≤ Real.cos θ := Real.neg_one_le_cos θ
  have key : truncToInt (Real.cos θ) = 0 ↔
      (-1 < Real.cos θ ∧ Real.cos θ < 1) := by
    unfold truncToInt
    by_cases h0 : 0 ≤ Real.cos θ
    · rw [if_pos h0]
      constructor
      · intro hf
        have h1 : Real.cos θ < 1 := by
          by_contra hc
          have he : Real.cos θ = 1 := le_antisymm hle (not_lt.mp hc)
          rw [he] at hf
          norm_num at hf
        exact ⟨by linarith, h1⟩
      · exact fun h => Int.floor_eq_zero_iff.mpr (Set.mem_Ico.mpr ⟨h0, h.2⟩)
    · rw [if_neg h0]
      push_neg at h0
      constructor
      · intro hf
        have hn : -1 < Real.cos θ := by
          by_contra hc
          have he : Real.cos θ = -1 := le_antisymm (not_lt.mp hc) hge
          rw [he] at hf
          norm_num at hf
        exact ⟨hn, by linarith⟩
      · exact fun h => Int.ceil_eq_zero_iff.mpr (Set.mem_Ioc.mpr ⟨h.1, le_of_lt h0⟩)
  unfold dihedPhaseField
  by_cases hz : truncToInt (Real.cos θ) = 0
  · rw [if_pos hz]
    have hb := key.mp hz
    refine ⟨⟨fun _ => hb, fun _ => rfl⟩, ⟨fun h => absurd h (by decide), ?_⟩⟩
    rintro (h | h)
    · rw [h] at hb
      exact absurd hb.2 (lt_irrefl 1)
    · rw [h] at hb
      exact absurd hb.1 (lt_irrefl (-1))
  · rw [if_neg hz]
    have hb : ¬ (-1 < Real.cos θ ∧ Real.cos θ < 1) := fun h => hz (key.mpr h)
    refine ⟨⟨fun h => absurd h (by decide), fun h => absurd h hb⟩,
      ⟨fun _ => ?_, fun _ => rfl⟩⟩
    by_cases h1 : Real.cos θ = 1
    · exact Or.inl h1
    · refine Or.inr ?_
      by_contra h2
      exact hb ⟨lt_of_le_of_ne hge (fun he => h2 he.symm),
        lt_of_le_of_ne hle h1⟩

/-- Lengths of the component lists produced by the stride-3 read loop. -/
theorem takeTriples_length (n : ℕ) (l : List ℚ) (h : 3 * n ≤ l.length) :
    (takeTriples n l).1.length = n ∧ (takeTriples n l).2.1.length = n ∧
      (takeTriples n l).2.2.length = n := by
  induction n generalizing l with
  | zero => exact ⟨rfl, rfl, rfl⟩
  | succ m ih =>
    match l with
    | [] => simp only [List.length_nil] at h; omega
    | [a] => simp only [List.length_cons, List.length_nil] at h; omega
    | [a, b] => simp only [List.length_cons, List.length_nil] at h; omega
    | a :: b :: c :: rest =>
      have hr : 3 * m ≤ rest.length := by
        simp only [List.length_cons] at h
        omega
      obtain ⟨h1, h2, h3⟩ := ih rest hr
      exact ⟨by simpa [takeTriples] using h1, by simpa [takeTriples] using h2,
        by simpa [takeTriples] using h3⟩

/-- Element access into the stride-3 read loop: coordinate `i` comes from
tokens `3i`, `3i+1`, `3i+2`. -/
theorem takeTriples_getD (n : ℕ) (l : List ℚ) (i : ℕ) (h : 3 * n ≤ l.length)
    (hi : i < n) :
    (takeTriples n l).1.getD i 0 = l.getD (3 * i) 0 ∧
      (takeTriples n l).2.1.getD i 0 = l.getD (3 * i + 1) 0 ∧
      (takeTriples n l).2.2.getD i 0 = l.getD (3 * i + 2) 0 := by
  induction n generalizing l i with
  | zero => omega
  | succ m ih =>
    match l with
    | [] => simp only [List.length_nil] at h; omega
    | [a] => simp only [List.length_cons, List.length_nil] at h; omega
    | [a, b] => simp only [List.length_cons, List.length_nil] at h; omega
    | a :: b :: c :: rest =>
      have hr : 3 * m ≤ rest.length := by
        simp only [List.length_cons] at h
        omega
      match i with
      | 0 => exact ⟨rfl, rfl, rfl⟩
      | i + 1 =>
        obtain ⟨h1, h2, h3⟩ := ih rest i hr (by omega)
        have e1 : 3 * (i + 1) = 3 * i + 1 + 1 + 1 := by ring
        have e2 : 3 * (i + 1) + 1 = 3 * i + 1 + 1 + 1 + 1 := by ring
        have e3 : 3 * (i + 1) + 2 = 3 * i + 2 + 1 + 1 + 1 := by ring
        refine ⟨?_, ?_, ?_⟩
        · rw [e1]
          simpa [takeTriples] using h1
        · rw [e2]
          simpa [takeTriples] using h2
        · rw [e3]
          have e4 : 3 * i + 1 + 1 + 1 + 1 = 3 * i + 2 + 1 + 1 := by ring
          simpa [takeTriples, e4] using h3

/-- Claim C4 counterexample: with `N = 1` and `T = 7` data tokens the reader
populates the velocity arrays (the source condition is `len(items) >= 6N`, met by
7 ≥ 6), although 7 is none of the exact sizes `6N`, `6N+3`, `6N+6` that the
claim allows for velocity presence. -/
theorem rst7_velocity_counterexample :
    (readRst7Tail 1 [0, 0, 0, 0, 0, 0, 0] [0]).map Rst7Out.atom_vx =
        some [0] ∧
      (7 ≠ 6 * 1 ∧ 7 ≠ 6 * 1 + 3 ∧ 7 ≠ 6 * 1 + 6) := by
  exact ⟨rfl, by decide⟩

/-- Claim C4 (amended): when `read_rst7` returns normally (at least `3N`
tokens), coordinates come from the first `3N` tokens (atom `i` from tokens
`3i, 3i+1, 3i+2`); the velocity arrays are populated if and only if
`T ≥ 6N` (not only at the exact sizes `6N`, `6N+3`, `6N+6`); the box lengths
are set iff `T` is exactly `3N+3`, `6N+3`, `3N+6` or `6N+6`; and the box
angles are set iff `T` is exactly `3N+6` or `6N+6`. -/
theorem rst7_block_inference (n : ℕ) (items lastLine : List ℚ)
    (h : 3 * n ≤ items.length) :
    ∃ r, readRst7Tail n items lastLine = some r ∧
      r.atom_x.length = n ∧ r.atom_y.length = n ∧ r.atom_z.length = n ∧
      (∀ i, i < n →
        r.atom_x.getD i 0 = items.getD (3 * i) 0 ∧
        r.atom_y.getD i 0 = items.getD (3 * i + 1) 0 ∧
        r.atom_z.getD i 0 = items.getD (3 * i + 2) 0) ∧
      (6 * n ≤ items.length →
        r.atom_vx.length = n ∧ r.atom_vy.length = n ∧ r.atom_vz.length = n) ∧
      (r.atom_vx ≠ [] ↔ 6 * n ≤ items.length ∧ 0 < n) ∧
      (r.boxDims.isSome = true ↔
        (items.length = 3 * n + 3 ∨ items.length = 6 * n + 3 ∨
          items.length = 3 * n + 6 ∨ items.length = 6 * n + 6)) ∧
      (r.boxAngles.isSome = true ↔
        (items.length = 3 * n + 6 ∨ items.length = 6 * n + 6)) := by
  refine ⟨{ atom_x := (takeTriples n items).1
            atom_y := (takeTriples n items).2.1
            atom_z := (takeTriples n items).2.2
            atom_vx := (if 6 * n ≤ items.length then
              takeTriples n (items.drop (3 * n)) else ([], [], [])).1
            atom_vy := (if 6 * n ≤ items.length then
              takeTriples n (items.drop (3 * n)) else ([], [], [])).2.1
            atom_vz := (if 6 * n ≤ items.length then
              takeTriples n (items.drop (3 * n)) else ([], [], [])).2.2
            boxDims := if items.length = 3 * n + 3 ∨ items.length = 6 * n + 3 ∨
                items.length = 3 * n + 6 ∨ items.length = 6 * n + 6 then
              some (lastLine.getD 0 0, lastLine.getD 1 0, lastLine.getD 2 0)
              else none
            boxAngles := if items.length = 3 * n + 6 ∨
                items.length = 6 * n + 6 then
              some (lastLine.getD 3 0, lastLine.getD 4 0, lastLine.getD 5 0)
              else none }, ?_, ?_⟩
  · unfold readRst7Tail
    rw [if_neg (not_lt.mpr h)]
  · obtain ⟨hx, hy, hz⟩ := takeTriples_length n items h
    refine ⟨hx, hy, hz, ?_, ?_, ?_, ?_, ?_⟩
    · exact fun i hi => takeTriples_getD n items i h hi
    · intro hv
      have hd : 3 * n ≤ (items.drop (3 * n)).length := by
        rw [List.length_drop]
        omega
      simpa [if_pos hv] using takeTriples_length n (items.drop (3 * n)) hd
    · constructor
      · intro hne
        by_cases hv : 6 * n ≤ items.length
        · refine ⟨hv, ?_⟩
          by_contra hn
          have hn0 : n = 0 := by omega
          subst hn0
          exact hne (by simp [if_pos hv, takeTriples])
        · exact absurd (by simp [if_neg hv]) hne
      · rintro ⟨hv, hn⟩
        have hd : 3 * n ≤ (items.drop (3 * n)).length := by
          rw [List.length_drop]
          omega
        have hlen := (takeTriples_length n (items.drop (3 * n)) hd).1
        intro hnil
        have hvx : (if 6 * n ≤ items.length then
            takeTriples n (items.drop (3 * n)) else ([], [], [])).1 = [] := hnil
        rw [if_pos hv] at hvx
        rw [hvx] at hlen
        simp at hlen
        omega
    · by_cases hb : items.length = 3 * n + 3 ∨ items.length = 6 * n + 3 ∨
          items.length = 3 * n + 6 ∨ items.length = 6 * n + 6
      · simp [if_pos hb, hb]
      · simp [if_neg hb, hb]
    · by_cases hb : items.length = 3 * n + 6 ∨ items.length = 6 * n + 6
      · simp [if_pos hb, hb]
      · simp [if_neg hb, hb]

/-- Witness for the amended C4 at `N = 1` with 9 tokens (`T = 6N + 3`:
coordinates, velocities and box lengths present, no angles). -/
theorem rst7_block_inference_witness :
    3 * 1 ≤ ([1, 2, 3, 4, 5, 6, 7, 8, 9] : List ℚ).length ∧
      (∃ r, readRst7Tail 1 [1, 2, 3, 4, 5, 6, 7, 8, 9] [7, 8, 9] = some r ∧
        r.atom_x.length = 1 ∧ r.atom_y.length = 1 ∧ r.atom_z.length = 1 ∧
        (∀ i, i < 1 →
          r.atom_x.getD i 0 = ([1, 2, 3, 4, 5, 6, 7, 8, 9] : List ℚ).getD (3 * i) 0 ∧
          r.atom_y.getD i 0 = ([1, 2, 3, 4, 5, 6, 7, 8, 9] : List ℚ).getD (3 * i + 1) 0 ∧
          r.atom_z.getD i 0 = ([1, 2, 3, 4, 5, 6, 7, 8, 9] : List ℚ).getD (3 * i + 2) 0) ∧
        (6 * 1 ≤ ([1, 2, 3, 4, 5, 6, 7, 8, 9] : List ℚ).length →
          r.atom_vx.length = 1 ∧ r.atom_vy.length = 1 ∧ r.atom_vz.length = 1) ∧
        (r.atom_vx ≠ [] ↔
          6 * 1 ≤ ([1, 2, 3, 4, 5, 6, 7, 8, 9] : List ℚ).length ∧ 0 < 1) ∧
        (r.boxDims.isSome = true ↔
          (([1, 2, 3, 4, 5, 6, 7, 8, 9] : List ℚ).length = 3 * 1 + 3 ∨
            ([1, 2, 3, 4, 5, 6, 7, 8, 9] : List ℚ).length = 6 * 1 + 3 ∨
            ([1, 2, 3, 4, 5, 6, 7, 8, 9] : List ℚ).length = 3 * 1 + 6 ∨
            ([1, 2, 3, 4, 5, 6, 7, 8, 9] : List ℚ).length = 6 * 1 + 6)) ∧
        (r.boxAngles.isSome = true ↔
          (([1, 2, 3, 4, 5, 6, 7, 8, 9] : List ℚ).length = 3 * 1 + 6 ∨
            ([1, 2, 3, 4, 5, 6, 7, 8, 9] : List ℚ).length = 6 * 1 + 6))) :=
  ⟨by decide, rst7_block_inference 1 [1, 2, 3, 4, 5, 6, 7, 8, 9] [7, 8, 9]
    (by decide)⟩

/-- Element access into a `List.replicate` block. -/
theorem getD_replicate_lt {α : Type} (a d : α) (n i : ℕ) (h : i < n) :
    (List.replicate n a).getD i d = a := by
  rw [List.getD_eq_getElem _ _ (by simpa using h)]
  simp

/-- In a `≤`-sorted list, `getD` is monotone over in-range indices. -/
theorem sorted_getD_le (l : List ℕ) (d : ℕ) (h : List.Pairwise (· ≤ ·) l)
    (i j : ℕ) (hij : i ≤ j) (hj : j < l.length) :
    l.getD i d ≤ l.getD j d := by
  rcases Nat.lt_or_ge i j with hlt | hge
  · rw [List.getD_eq_getElem l d (lt_trans hlt hj), List.getD_eq_getElem l d hj]
    exact List.pairwise_iff_getElem.mp h i j _ _ hlt
  · have hij' : i = j := le_antisymm hij hge
    rw [hij']

/-- Span property of the residue-expansion loop: provided the start table is
`≤`-sorted and bounded by the atom count, atom `i` of residue block `j`
(numbering starting at `r0`) receives the pair `(r0 + j, residue_name[r0 + j])`;
the output is indexed relative to the first start. -/
theorem expandResidues_getD (names : List String) (noAtoms : ℕ) :
    ∀ (starts : List ℕ) (r0 j i : ℕ),
      List.Pairwise (· ≤ ·) (starts ++ [noAtoms]) →
      j < starts.length →
      starts.getD j noAtoms ≤ i →
      i < (if j + 1 < starts.length then starts.getD (j + 1) noAtoms
        else noAtoms) →
      (expandResidues r0 names noAtoms starts).getD
          (i - starts.getD 0 noAtoms) ((0 : ℤ), "") =
        ((r0 + j : ℤ), names.getD (r0 + j) "") := by
  intro starts
  induction starts with
  | nil =>
    intro r0 j i _ hj _ _
    exact absurd hj (by simp)
  | cons st rest ih =>
    intro r0 j i hpw hj hlo hhi
    rw [List.cons_append] at hpw
    obtain ⟨hst, hpw'⟩ := List.pairwise_cons.mp hpw
    cases rest with
    | nil =>
      have hj0 : j = 0 := by simpa using hj
      subst hj0
      have hhi' : i < noAtoms := by simpa using hhi
      have hlo' : st ≤ i := hlo
      show (List.replicate (noAtoms - st) ((r0 : ℤ), names.getD r0 "") ++
          []).getD (i - st) ((0 : ℤ), "") = _
      rw [List.getD_append _ _ _ _ (by simp; omega)]
      rw [getD_replicate_lt _ _ _ _ (by omega)]
      simp
    | cons st2 rest2 =>
      cases j with
      | zero =>
        have hhi' : i < st2 := by
          have hcond : 0 + 1 < (st :: st2 :: rest2).length := by
            simp
          rw [if_pos hcond] at hhi
          simpa using hhi
        have hlo' : st ≤ i := hlo
        show (List.replicate (st2 - st) ((r0 : ℤ), names.getD r0 "") ++
            expandResidues (r0 + 1) names noAtoms (st2 :: rest2)).getD
            (i - st) ((0 : ℤ), "") = _
        rw [List.getD_append _ _ _ _ (by simp; omega)]
        rw [getD_replicate_lt _ _ _ _ (by omega)]
        simp
      | succ j' =>
        have hj' : j' < (st2 :: rest2).length := by
          simpa using hj
        have hlo' : (st2 :: rest2).getD j' noAtoms ≤ i := by
          simpa using hlo
        have hst2i : st2 ≤ i := by
          have hpw2 : List.Pairwise (· ≤ ·) (st2 :: rest2) :=
            hpw'.sublist (List.sublist_append_left _ _)
          have h0j : (st2 :: rest2).getD 0 noAtoms ≤
              (st2 :: rest2).getD j' noAtoms :=
            sorted_getD_le _ _ hpw2 0 j' (Nat.zero_le j') hj'
          calc st2 = (st2 :: rest2).getD 0 noAtoms := rfl
            _ ≤ (st2 :: rest2).getD j' noAtoms := h0j
            _ ≤ i := hlo'
        have hstst2 : st ≤ st2 := hst st2 (by simp)
        have hhi' : i < (if j' + 1 < (st2 :: rest2).length then
            (st2 :: rest2).getD (j' + 1) noAtoms else noAtoms) := by
          by_cases hcond : j' + 1 < (st2 :: rest2).length
          · rw [if_pos hcond]
            have hcond2 : j' + 1 + 1 < (st :: st2 :: rest2).length := by
              simp only [List.length_cons] at hcond ⊢
              omega
            rw [if_pos hcond2] at hhi
            simpa using hhi
          · rw [if_neg hcond]
            have hcond2 : ¬ j' + 1 + 1 < (st :: st2 :: rest2).length := by
              simp only [List.length_cons] at hcond ⊢
              omega
            rw [if_neg hcond2] at hhi
            exact hhi
        have hres := ih (r0 + 1) j' i hpw' hj' hlo' hhi'
        rw [show (st2 :: rest2).getD 0 noAtoms = st2 from rfl] at hres
        show (List.replicate (st2 - st) ((r0 : ℤ), names.getD r0 "") ++
            expandResidues (r0 + 1) names noAtoms (st2 :: rest2)).getD
            (i - st) ((0 : ℤ), "") = _
        rw [List.getD_append_right _ _ _ _ (by simp; omega)]
        rw [List.length_replicate]
        have harith : i - st - (st2 - st) = i - st2 := by omega
        rw [harith, hres]
        have heq : r0 + 1 + j' = r0 + (j' + 1) := by omega
        rw [heq]
        refine Prod.ext ?_ rfl
        push_cast
        ring

/-- Claim C7: on a 5-atom record with empty per-atom residue names, a
2-residue table with starts `[0, 3]`, `tripos_mol2.build` produces
`atom_resid = [0, 0, 0, 1, 1]` and `atom_resname` taken from
`residue_name[0]` for atoms 0-2 and `residue_name[1]` for atoms 3-4; in
general, in the expansion each residue `r` spans atoms `residue_start[r]`
(inclusive) to `residue_start[r+1]` (exclusive), the last residue extending
to `no_atoms`. -/
theorem mol2_residue_backfill :
    (mol2Build
        ⟨none, none, ["a1", "a2", "a3", "a4", "a5"], [], [], [], [],
          ["R1", "R2"], [0, 3], [], 5, 0, 2⟩).map Mol2Rec.atom_resid =
      some [0, 0, 0, 1, 1] ∧
      (mol2Build
        ⟨none, none, ["a1", "a2", "a3", "a4", "a5"], [], [], [], [],
          ["R1", "R2"], [0, 3], [], 5, 0, 2⟩).map Mol2Rec.atom_resname =
        some ["R1", "R1", "R1", "R2", "R2"] ∧
      (∀ (starts : List ℕ) (names : List String) (noAtoms j i : ℕ),
        List.Pairwise (· ≤ ·) (starts ++ [noAtoms]) →
        starts.getD 0 noAtoms = 0 →
        j < starts.length →
        starts.getD j noAtoms ≤ i →
        i < (if j + 1 < starts.length then starts.getD (j + 1) noAtoms
          else noAtoms) →
        (expandResidues 0 names noAtoms starts).getD i ((0 : ℤ), "") =
          ((j : ℤ), names.getD j "")) := by
  refine ⟨by decide, by decide, ?_⟩
  intro starts names noAtoms j i hpw h0 hj hlo hhi
  have h := expandResidues_getD names noAtoms starts 0 j i hpw hj hlo hhi
  rw [h0] at h
  simpa using h

/-- Witness for C7's general span property: residue 1 of the scenario table
(`starts = [0, 3]`, 5 atoms) covers atom 4, which receives id 1 and name
`R2`. -/
theorem mol2_residue_backfill_witness :
    List.Pairwise (· ≤ ·) (([0, 3] : List ℕ) ++ [5]) ∧
      (([0, 3] : List ℕ).getD 0 5 = 0) ∧ 1 < ([0, 3] : List ℕ).length ∧
      (([0, 3] : List ℕ).getD 1 5 ≤ 4) ∧
      (4 < if 1 + 1 < ([0, 3] : List ℕ).length then
        ([0, 3] : List ℕ).getD (1 + 1) 5 else 5) ∧
      (expandResidues 0 ["R1", "R2"] 5 [0, 3]).getD 4 ((0 : ℤ), "") =
        ((1 : ℤ), "R2") := by
  refine ⟨by decide, by decide, by decide, by decide, by decide, ?_⟩
  exact mol2_residue_backfill.2.2 [0, 3] ["R1", "R2"] 5 1 4
    (by decide) (by decide) (by decide) (by decide) (by decide)

/-- Invariants of the inner partner loop of `Mol2Writer.bonds`: the `added`
list only grows, every emitted record has `from = i` and registers its pair
in the final `added` while the pair was absent (in both orientations) from
the initial `added`, and the emitted records are pairwise on distinct
unordered pairs. -/
theorem emitPartners_spec (i : ℕ) (slots : List ℕ) :
    ∀ (js : List ℕ) (added : List (ℕ × ℕ)),
      (∀ q ∈ added, q ∈ (emitPartners i slots added js).2) ∧
        (∀ r ∈ (emitPartners i slots added js).1,
          r.1 = i ∧ (i, r.2.1) ∈ (emitPartners i slots added js).2 ∧
            (i, r.2.1) ∉ added ∧ (r.2.1, i) ∉ added) ∧
        List.Pairwise (fun r s : ℕ × ℕ × ℕ =>
          ¬ samePair (r.1, r.2.1) (s.1, s.2.1))
          (emitPartners i slots added js).1 := by
  intro js
  induction js with
  | nil =>
    intro added
    exact ⟨fun q hq => hq, by simp [emitPartners], by simp [emitPartners]⟩
  | cons j js ih =>
    intro added
    by_cases hmem : (i, j) ∈ added ∨ (j, i) ∈ added
    · simp only [emitPartners, if_pos hmem]
      exact ih added
    · simp only [emitPartners, if_neg hmem]
      obtain ⟨ha, hb, hc⟩ := ih (added ++ [(i, j)])
      refine ⟨?_, ?_, ?_⟩
      · intro q hq
        exact ha q (by simp [hq])
      · intro r hr
        rcases List.mem_cons.mp hr with hr0 | hr'
        · subst hr0
          refine ⟨rfl, ha (i, j) (by simp), ?_, ?_⟩
          · exact fun hin => hmem (Or.inl hin)
          · exact fun hin => hmem (Or.inr hin)
        · obtain ⟨h1, h2, h3, h4⟩ := hb r hr'
          exact ⟨h1, h2, fun hin => h3 (by simp [hin]),
            fun hin => h4 (by simp [hin])⟩
      · refine List.Pairwise.cons ?_ hc
        intro s hs hsame
        obtain ⟨hs1, hs2, hs3, hs4⟩ := hb s hs
        rcases hsame with heq | heq
        · rw [Prod.mk.injEq] at heq
          apply hs3
          rw [← heq.2]
          simp
        · rw [Prod.mk.injEq] at heq
          have hji : j = i := heq.2.trans hs1
          have hsi : s.2.1 = i := heq.1.symm
          apply hs4
          rw [hsi, hji]
          simp

/-- Invariants of the outer atom loop of `Mol2Writer.bonds`: no written
record's pair is in the incoming `added` (either orientation), and the
written records are pairwise on distinct unordered pairs. -/
theorem writeBondsAux_spec :
    ∀ (slotsAll : List (List ℕ)) (i : ℕ) (added : List (ℕ × ℕ)),
      (∀ r ∈ writeBondsAux i added slotsAll,
        (r.1, r.2.1) ∉ added ∧ (r.2.1, r.1) ∉ added) ∧
        List.Pairwise (fun r s : ℕ × ℕ × ℕ =>
          ¬ samePair (r.1, r.2.1) (s.1, s.2.1))
          (writeBondsAux i added slotsAll) := by
  intro slotsAll
  induction slotsAll with
  | nil =>
    intro i added
    simp [writeBondsAux]
  | cons slots rest ih =>
    intro i added
    obtain ⟨ea, eb, ec⟩ := emitPartners_spec i slots (sortedUnique slots) added
    obtain ⟨wa, wb⟩ :=
      ih (i + 1) (emitPartners i slots added (sortedUnique slots)).2
    constructor
    · intro r hr
      simp only [writeBondsAux] at hr
      rcases List.mem_append.mp hr with h | h
      · obtain ⟨h1, h2, h3, h4⟩ := eb r h
        rw [h1]
        exact ⟨h3, h4⟩
      · obtain ⟨h1, h2⟩ := wa r h
        exact ⟨fun hin => h1 (ea _ hin), fun hin => h2 (ea _ hin)⟩
    · simp only [writeBondsAux]
      rw [List.pairwise_append]
      refine ⟨ec, wb, ?_⟩
      intro r hr s hs hsame
      obtain ⟨h1, h2, h3, h4⟩ := eb r hr
      obtain ⟨w1, w2⟩ := wa s hs
      rcases hsame with heq | heq
      · exact w1 (by rw [← heq, h1]; exact h2)
      · have hpair : (s.2.1, s.1) = (i, r.2.1) := by
          rw [Prod.mk.injEq] at heq ⊢
          exact ⟨heq.1.symm.trans h1, heq.2.symm⟩
        exact w2 (by rw [hpair]; exact h2)

/-- Claim C9: a double bond stored as two parallel connectivity entries
(`slots = [[1, 1], [0, 0]]`) is written as exactly one BOND record with the
multiplicity count 2 as its type; in general the records written by
`Mol2Writer.bonds` are pairwise on distinct unordered atom pairs — once a
pair is written in either order, no second record for it is emitted. -/
theorem mol2_bond_dedup :
    mol2WriteBonds [[1, 1], [0, 0]] = [(0, 1, 2)] ∧
      ∀ slotsAll : List (List ℕ),
        List.Pairwise (fun r s : ℕ × ℕ × ℕ =>
          ¬ samePair (r.1, r.2.1) (s.1, s.2.1))
          (mol2WriteBonds slotsAll) :=
  ⟨by decide, fun slotsAll => (writeBondsAux_spec slotsAll 0 []).2⟩

/-- Preservation of the reader-state invariant by one line step: flushed
buffers keep their properties, the open buffer stays blank-free, and when a
section is open the head of the buffer is the line whose classification
declared it. -/
theorem stepLine_inv (classify : String → Option String → Option String)
    (st : ReaderState) (line : String) (nextLine : Option String)
    (hA : ∀ p ∈ st.flushes, (∀ x ∈ p.2, x ≠ "") ∧
      ∀ s, p.1 = some s →
        ∃ l rest nxt, p.2 = l :: rest ∧ classify l nxt = some s)
    (hB : ∀ x ∈ st.buffer, x ≠ "")
    (hC : ∀ s, st.sec = some s →
      ∃ l rest nxt, st.buffer = l :: rest ∧ classify l nxt = some s) :
    (∀ p ∈ (stepLine classify st line nextLine).flushes,
      (∀ x ∈ p.2, x ≠ "") ∧
        ∀ s, p.1 = some s →
          ∃ l rest nxt, p.2 = l :: rest ∧ classify l nxt = some s) ∧
      (∀ x ∈ (stepLine classify st line nextLine).buffer, x ≠ "") ∧
      (∀ s, (stepLine classify st line nextLine).sec = some s →
        ∃ l rest nxt, (stepLine classify st line nextLine).buffer = l :: rest ∧
          classify l nxt = some s) := by
  by_cases hl : pyStrip line = ""
  · simp only [stepLine, if_pos hl]
    exact ⟨hA, hB, hC⟩
  · simp only [stepLine, if_neg hl]
    cases hcl : classify (pyStrip line) (nextLine.map pyStrip) with
    | none =>
      refine ⟨hA, ?_, ?_⟩
      · intro x hx
        rcases List.mem_append.mp hx with h | h
        · exact hB x h
        · rw [List.mem_singleton.mp h]
          exact hl
      · intro s hs
        obtain ⟨l, rest, nxt, hbuf, hdecl⟩ := hC s hs
        exact ⟨l, rest ++ [pyStrip line], nxt, by rw [hbuf]; rfl, hdecl⟩
    | some name =>
      by_cases hsec : st.sec = some name
      · simp only [if_pos hsec]
        refine ⟨hA, ?_, ?_⟩
        · intro x hx
          rcases List.mem_append.mp hx with h | h
          · exact hB x h
          · rw [List.mem_singleton.mp h]
            exact hl
        · intro s hs
          obtain ⟨l, rest, nxt, hbuf, hdecl⟩ := hC s hs
          exact ⟨l, rest ++ [pyStrip line], nxt, by rw [hbuf]; rfl, hdecl⟩
      · simp only [if_neg hsec]
        refine ⟨?_, ?_, ?_⟩
        · intro p hp
          rcases List.mem_append.mp hp with h | h
          · exact hA p h
          · cases hst : st.sec with
            | none =>
              rw [hst] at h
              simp at h
            | some s₀ =>
              rw [hst] at h
              have hp' : p = (some s₀, st.buffer) := by simpa using h
              subst hp'
              refine ⟨fun x hx => hB x hx, ?_⟩
              intro s hs
              have hss : s₀ = s := by
                simpa using hs
              subst hss
              exact hC s₀ hst
        · intro x hx
          rw [List.mem_singleton.mp hx]
          exact hl
        · intro s hs
          have hns : name = s := by
            simpa using hs
          subst hns
          exact ⟨pyStrip line, [], nextLine.map pyStrip, rfl, hcl⟩

/-- The reader-state invariant is preserved by running the whole line
list. -/
theorem runLines_inv (classify : String → Option String → Option String) :
    ∀ (lines : List String) (st : ReaderState),
      ((∀ p ∈ st.flushes, (∀ x ∈ p.2, x ≠ "") ∧
          ∀ s, p.1 = some s →
            ∃ l rest nxt, p.2 = l :: rest ∧ classify l nxt = some s) ∧
        (∀ x ∈ st.buffer, x ≠ "") ∧
        (∀ s, st.sec = some s →
          ∃ l rest nxt, st.buffer = l :: rest ∧ classify l nxt = some s)) →
      ((∀ p ∈ (runLines classify st lines).flushes, (∀ x ∈ p.2, x ≠ "") ∧
          ∀ s, p.1 = some s →
            ∃ l rest nxt, p.2 = l :: rest ∧ classify l nxt = some s) ∧
        (∀ x ∈ (runLines classify st lines).buffer, x ≠ "") ∧
        (∀ s, (runLines classify st lines).sec = some s →
          ∃ l rest nxt, (runLines classify st lines).buffer = l :: rest ∧
            classify l nxt = some s)) := by
  intro lines
  induction lines with
  | nil => exact fun st h => h
  | cons l rest ih =>
    intro st h
    exact ih _ (stepLine_inv classify st l rest.head? h.1 h.2.1 h.2.2)

/-- Claim C10 counterexample: on the input `["hello"]` no line ever declares
a section, yet the final flush hands the handler the non-empty buffer
`["hello"]` with section `None` — its first element is not a section
marker (the MOL2 classifier returns `none` on it), refuting the claim that
every flushed non-empty buffer starts with the line that declared its
section. -/
theorem reader_flush_no_section :
    readerFlushes mol2Classify ["hello"] = [(none, ["hello"])] ∧
      mol2Classify "hello" none = none :=
  ⟨by decide, by decide⟩

/-- Claim C10 (amended): every buffer flushed to the section handler is free
of blank lines, and whenever the flushed buffer carries a declared section
(name not `None`), it is non-empty and its first element is exactly the
line whose classification declared that section; the final flush of a file
in which no section was ever declared is handed with section `None` and
need not start with a marker. -/
theorem reader_flush_marker (classify : String → Option String → Option String)
    (lines : List String) :
    (∀ p ∈ readerFlushes classify lines, ∀ x ∈ p.2, x ≠ "") ∧
      (∀ s ls, (some s, ls) ∈ readerFlushes classify lines →
        ∃ l rest nxt, ls = l :: rest ∧ classify l nxt = some s) := by
  obtain ⟨hA, hB, hC⟩ := runLines_inv classify lines ⟨none, [], []⟩
    ⟨by simp, by simp, fun s h => Option.noConfusion h⟩
  constructor
  · intro p hp x hx
    rcases List.mem_append.mp hp with h | h
    · exact (hA p h).1 x hx
    · rw [List.mem_singleton.mp h] at hx
      exact hB x hx
  · intro s ls hmem
    rcases List.mem_append.mp hmem with h | h
    · exact (hA _ h).2 s rfl
    · have hpair := List.mem_singleton.mp h
      rw [Prod.mk.injEq] at hpair
      obtain ⟨l, rest, nxt, hbuf, hdecl⟩ := hC s hpair.1.symm
      exact ⟨l, rest, nxt, hpair.2.trans hbuf, hdecl⟩

/-- Witness for the amended C10: a two-line MOL2 atom section is flushed
with its `@<TRIPOS>ATOM` marker at index 0, and that marker line classifies
to the section name `ATOM`. -/
theorem reader_flush_marker_witness :
    ((some "ATOM", ["@<TRIPOS>ATOM", "1 C1 0.0 0.0 0.0 C.3"]) ∈
        readerFlushes mol2Classify ["@<TRIPOS>ATOM", "1 C1 0.0 0.0 0.0 C.3"]) ∧
      (∃ l rest nxt,
        (["@<TRIPOS>ATOM", "1 C1 0.0 0.0 0.0 C.3"] : List String) =
          l :: rest ∧ mol2Classify l nxt = some "ATOM") := by
  refine ⟨by decide, ?_⟩
  exact (reader_flush_marker mol2Classify
    ["@<TRIPOS>ATOM", "1 C1 0.0 0.0 0.0 C.3"]).2 "ATOM"
    ["@<TRIPOS>ATOM", "1 C1 0.0 0.0 0.0 C.3"] (by decide)

end OpenMol
